import Mathlib

/-!
Verification development for the calendar MCP server's core engines
(`src/app.js`): the interval/conflict engine (`detectEventConflicts`,
`isTimeOverlap`), the similarity/duplicate engine (`calculateSimilarity`,
`arePotentialDuplicates`, `findDuplicateEvents`), and the recurrence
instance resolver used by `createEventException` / `deleteEventInstance`.

Modelling conventions:
- JavaScript `Date` instants are modelled as `Int` epoch milliseconds
  (the code always compares/parses dates after `new Date(...)`, whose
  comparison semantics is numeric epoch-ms comparison).
- JavaScript floating-point arithmetic on similarity scores is modelled
  with exact rationals (`Rat`); the literals 0.7/0.3/48 are exact.
- The gateway (`calendar.events.list` / `.instances`) is external I/O;
  its response `items` array is passed to the pure model as a list
  parameter, so "for every gateway response" is a `∀` over that list.
-/

namespace CalendarCore

/-! ## Interval/Conflict engine (src/app.js, `detectEventConflicts`) -/

/-- An existing event as consumed by the conflict scan: id, optional
summary, optional status string, parsed start/end instants (epoch ms,
from `new Date(e.start.dateTime || e.start.date)`), and the optional
attendee email list (`existingEvent.attendees` may be `undefined`). -/
structure GEvent where
  id : String
  summary : Option String
  status : Option String
  startMs : Int
  endMs : Int
  attendees : Option (List String)
deriving DecidableEq, Repr

/-- Parameters of `detectEventConflicts` after destructuring and date
parsing: candidate span instants, optional event id to exclude, the
proposed attendee emails, and the `checkAttendees`/`warningOnly` flags
(JS defaults: `attendees = []`, `checkAttendees = true`,
`warningOnly = false`). -/
structure ConflictParams where
  startMs : Int
  endMs : Int
  eventId : Option String := none
  attendees : List String := []
  checkAttendees : Bool := true
  warningOnly : Bool := false
deriving DecidableEq, Repr

/-- The helper `isTimeOverlap` from `detectEventConflicts`:
`(event1Start < event2End && event1End > event2Start)`. -/
def isTimeOverlap (event1Start event1End event2Start event2End : Int) : Bool :=
  event1Start < event2End && event1End > event2Start

/-- One entry of `conflicts.timeConflicts`: the code pushes
`{ id, summary: summary || 'Untitled', start, end, conflictType: 'time_overlap' }`. -/
structure TimeConflict where
  id : String
  summary : String
  startMs : Int
  endMs : Int
  conflictType : String
deriving DecidableEq, Repr

/-- One entry of `conflicts.attendeeConflicts`: the code pushes
`{ id, summary: summary || 'Untitled', start, end, conflictingAttendees,
conflictType: 'attendee_double_booking' }`. -/
structure AttendeeConflict where
  id : String
  summary : String
  startMs : Int
  endMs : Int
  conflictingAttendees : List String
  conflictType : String
deriving DecidableEq, Repr

/-- The mutable `conflicts` object accumulated over the scan loop. -/
structure ConflictAcc where
  timeConflicts : List TimeConflict
  attendeeConflicts : List AttendeeConflict
  hasConflicts : Bool
deriving DecidableEq, Repr

/-- The summary block attached before returning a populated report. -/
structure ConflictSummary where
  timeConflictsCount : Nat
  attendeeConflictsCount : Nat
  warningOnly : Bool
deriving DecidableEq, Repr

/-- A populated conflict report (only built when `hasConflicts`). -/
structure ConflictReport where
  timeConflicts : List TimeConflict
  attendeeConflicts : List AttendeeConflict
  hasConflicts : Bool
  summary : ConflictSummary
deriving DecidableEq, Repr

/-- Errors raised by the conflict engine; the code raises
`new Error('End time must be after start time')`, modelled as a
distinguishable validation kind. -/
inductive ConflictError
  | validation (msg : String)
deriving DecidableEq, Repr

def timeEntry (e : GEvent) : TimeConflict :=
  ⟨e.id, e.summary.getD "Untitled", e.startMs, e.endMs, "time_overlap"⟩

def attEntry (e : GEvent) (shared : List String) : AttendeeConflict :=
  ⟨e.id, e.summary.getD "Untitled", e.startMs, e.endMs, shared, "attendee_double_booking"⟩

/-- JavaScript `toLowerCase`, modelled character-by-character (written
over the underlying character list so that it reduces in the kernel). -/
def lowerStr (s : String) : String := String.mk (s.data.map Char.toLower)

/-- The common-attendee computation of the scan loop: lowercase the
proposed emails and the existing event's emails, then keep each proposed
email contained in the existing list (the JS `for … includes … push`). -/
def sharedAttendees (proposed existing : List String) : List String :=
  let proposedEmails := proposed.map (fun a => lowerStr a)
  let existingEmails := existing.map (fun a => lowerStr a)
  proposedEmails.filter (fun email => decide (email ∈ existingEmails))

/-- One iteration of the `for (const existingEvent of response.data.items)`
loop: skip self (when `eventId` given) and cancelled events, record a time
conflict on overlap, and record an attendee conflict when `checkAttendees`,
the existing event has an attendee list, the proposal has attendees, the
shared set is non-empty, and the spans overlap. -/
def scanStep (p : ConflictParams) (acc : ConflictAcc) (e : GEvent) : ConflictAcc :=
  if p.eventId = some e.id then acc
  else if e.status = some "cancelled" then acc
  else
    let acc1 :=
      if isTimeOverlap p.startMs p.endMs e.startMs e.endMs = true then
        { acc with timeConflicts := acc.timeConflicts ++ [timeEntry e], hasConflicts := true }
      else acc
    if p.checkAttendees = true ∧ e.attendees.isSome = true ∧ 0 < p.attendees.length then
      let shared := sharedAttendees p.attendees (e.attendees.getD [])
      if shared ≠ [] ∧ isTimeOverlap p.startMs p.endMs e.startMs e.endMs = true then
        { acc1 with
            attendeeConflicts := acc1.attendeeConflicts ++ [attEntry e shared],
            hasConflicts := true }
      else acc1
    else acc1

/-- The whole scan loop, starting from the fresh `conflicts` object. -/
def scanConflicts (p : ConflictParams) (items : List GEvent) : ConflictAcc :=
  items.foldl (scanStep p) ⟨[], [], false⟩

/-- `detectEventConflicts`, after date parsing, as a function of the
gateway response `items`: validate `end > start` (before the gateway is
consulted), return `null` for an empty candidate list, scan, return
`null` when nothing was flagged, otherwise attach the summary block and
return the populated report. -/
def detectEventConflicts (p : ConflictParams) (items : List GEvent) :
    Except ConflictError (Option ConflictReport) :=
  if p.endMs ≤ p.startMs then
    .error (.validation "End time must be after start time")
  else if items.isEmpty then .ok none
  else
    let acc := scanConflicts p items
    if acc.hasConflicts = false then .ok none
    else
      .ok (some ⟨acc.timeConflicts, acc.attendeeConflicts, acc.hasConflicts,
        ⟨acc.timeConflicts.length, acc.attendeeConflicts.length, p.warningOnly⟩⟩)

/-- An event is scanned (not skipped) iff it is not the excluded id and
not cancelled. -/
def isScanned (p : ConflictParams) (e : GEvent) : Bool :=
  decide (¬ (p.eventId = some e.id ∨ e.status = some "cancelled"))

/-- The condition under which the loop records a time conflict for a
scanned event. -/
def timeHit (p : ConflictParams) (e : GEvent) : Bool :=
  isTimeOverlap p.startMs p.endMs e.startMs e.endMs

/-- The condition under which the loop records an attendee conflict for a
scanned event. -/
def attHit (p : ConflictParams) (e : GEvent) : Bool :=
  p.checkAttendees && e.attendees.isSome && decide (0 < p.attendees.length)
    && decide (sharedAttendees p.attendees (e.attendees.getD []) ≠ [])
    && isTimeOverlap p.startMs p.endMs e.startMs e.endMs


/-! ## Recurrence instance resolver
(src/app.js, `createEventException` / `deleteEventInstance`) -/

/-- One expanded recurrence instance as returned by
`calendar.events.instances`: its own id and the parsed
`originalStartTime.dateTime || originalStartTime.date` instant (epoch
ms), `none` when the instance carries no `originalStartTime`. -/
structure RecInstance where
  id : String
  originalStart : Option Int
deriving DecidableEq, Repr

/-- The `toISOString().substring(0, 10)` date portion: `toISOString`
prints the instant in UTC, so two instants print the same first ten
characters `YYYY-MM-DD` exactly when they fall on the same UTC calendar
day, i.e. when the floor-divisions of their epoch ms by 86400000 agree. -/
def isoDate (t : Int) : Int := t.fdiv 86400000

/-- The body of the `instances.data.items.find(...)` callback: an
instance matches when it has an `originalStartTime` whose normalized ISO
date portion equals the target's. -/
def instanceDateMatches (inst : RecInstance) (target : Int) : Bool :=
  match inst.originalStart with
  | none => false
  | some t => decide (isoDate t = isoDate target)

/-- The instance resolver shared by `createEventException` and
`deleteEventInstance`: first match in scan order. -/
def findInstance (instances : List RecInstance) (target : Int) : Option RecInstance :=
  instances.find? (fun inst => instanceDateMatches inst target)

/-- Distinguishable error kinds raised around instance resolution:
`notRecurring` is `'The specified event is not a recurring event'`,
`instanceNotFound` is `'Could not find the specified instance in this
recurring event series'`. -/
inductive RecurrenceError
  | notRecurring
  | instanceNotFound
deriving DecidableEq, Repr

/-- The master event's field consulted by the recurrence check:
`masterEvent.data.recurrence` (an RRULE array or absent). -/
structure MasterEvent where
  recurrence : Option (List String)
deriving DecidableEq, Repr

/-- The resolution prefix of `createEventException`: fetch the master,
fail when `!masterEvent.data.recurrence`, then resolve the instance and
fail when no instance matches. -/
def createEventExceptionResolve (master : MasterEvent) (instances : List RecInstance)
    (target : Int) : Except RecurrenceError RecInstance :=
  if master.recurrence.isNone then .error .notRecurring
  else
    match findInstance instances target with
    | some inst => .ok inst
    | none => .error .instanceNotFound

/-- The resolution prefix of `deleteEventInstance`: the code never
fetches the master event and performs no recurrence check — it goes
straight from parameter validation to `calendar.events.instances` and
the resolver.  The master is a parameter here only to express that the
result does not depend on it. -/
def deleteEventInstanceResolve (_master : MasterEvent) (instances : List RecInstance)
    (target : Int) : Except RecurrenceError RecInstance :=
  match findInstance instances target with
  | some inst => .ok inst
  | none => .error .instanceNotFound

/-! ## Similarity / duplicate engine
(src/app.js, `findDuplicateEvents` and its inner helpers) -/

/-- Substitution cost of one cell of the Levenshtein table:
`str1[i-1] === str2[j-1] ? 0 : 1`. -/
def levCost (c1 c2 : Char) : Nat := if c1 = c2 then 0 else 1

/-- The unit-cost edit-distance recurrence
`d(i,j) = min(d(i-1,j)+1, d(i,j-1)+1, d(i-1,j-1)+cost)` written as a
structural recursion; the reference function against which the code's
dynamic-programming table is proved equal. -/
def levRec : List Char → List Char → Nat
  | [], ys => ys.length
  | x :: xs, [] => (x :: xs).length
  | x :: xs, y :: ys =>
    min (levRec xs (y :: ys) + 1)
      (min (levRec (x :: xs) ys + 1) (levRec xs ys + levCost x y))
termination_by a b => a.length + b.length

/-- The inner `for (let j = 1; j <= len2; j++)` loop of
`calculateSimilarity`'s table fill: builds the entries `dp[i][1..len2]`
of row `i` from the previous row (`p0 :: p1 :: ps`, i.e.
`dp[i-1][j-1] :: dp[i-1][j] :: …`) and the entry to the left
(`left = dp[i][j-1]`), each entry being
`Math.min(dp[i-1][j] + 1, dp[i][j-1] + 1, dp[i-1][j-1] + cost)`. -/
def levRowAux (c1 : Char) : List Char → List Nat → Nat → List Nat
  | c2 :: cs, p0 :: p1 :: ps, left =>
    let v := min (p1 + 1) (min (left + 1) (p0 + levCost c1 c2))
    v :: levRowAux c1 cs (p1 :: ps) v
  | _, _, _ => []

/-- The outer `for (let i = 1; i <= len1; i++)` loop: successively
replaces row `i-1` by row `i` (whose first entry is `dp[i][0] = i`). -/
def levRows (str2 : List Char) : List Char → List Nat → Nat → List Nat
  | [], prev, _ => prev
  | c1 :: cs, prev, i => levRows str2 cs (i :: levRowAux c1 str2 prev i) (i + 1)

/-- `calculateSimilarity`'s dynamic program: start from row 0
(`dp[0][j] = j`), fill all rows, and read `dp[len1][len2]` (the last
entry of the final row). -/
def levenshteinDistance (s1 s2 : List Char) : Nat :=
  (levRows s2 s1 (List.range (s2.length + 1)) 1).getLastD 0

/-- Specification of the tail of a table row, used to relate the dynamic
program to `levRec`: with `u` the reversed consumed prefix of `str1` and
`w` the reversed consumed prefix of `str2`, the remaining entries are
`levRec u (c :: w)` for the successive extensions of `w` by `cs`. -/
def rowSpec (u : List Char) : List Char → List Char → List Nat
  | _, [] => []
  | w, c :: cs => levRec u (c :: w) :: rowSpec u (c :: w) cs

/-- `calculateSimilarity` (inner helper of `findDuplicateEvents`):
return 0 when either string is falsy (empty), lowercase both, return 1
when identical, otherwise `1 - distance / max(len1, len2)` with the
Levenshtein distance computed by the dynamic program. Scores are exact
rationals here (the JS computes in floating point). -/
def calculateSimilarity (str1 str2 : String) : Rat :=
  if str1 = "" ∨ str2 = "" then 0
  else
    let s1 := str1.data.map Char.toLower
    let s2 := str2.data.map Char.toLower
    if s1 = s2 then 1
    else
      let maxLen := max s1.length s2.length
      1 - ((levenshteinDistance s1 s2 : Rat) / (maxLen : Rat))

/-- An event as consumed by the duplicate scan: its id, the optional
summary, and the parsed start instant
(`new Date(e.start.dateTime || e.start.date)`, epoch ms). -/
structure DupEvent where
  id : String
  summary : Option String
  startMs : Int
deriving DecidableEq, Repr

/-- `arePotentialDuplicates`: summary similarity (on `summary || ''`)
weighted 0.7 plus binary 48-hour time proximity weighted 0.3, compared
against the threshold with `>=`. -/
def arePotentialDuplicates (event1 event2 : DupEvent) (threshold : Rat) : Bool :=
  let summarySimilarity :=
    calculateSimilarity (event1.summary.getD "") (event2.summary.getD "")
  let timeDiffMs : Rat := ((event1.startMs - event2.startMs).natAbs : Rat)
  let timeDiffHours : Rat := timeDiffMs / (1000 * 60 * 60)
  let timeProximity : Rat := if timeDiffHours < 48 then 1 else 0
  decide (summarySimilarity * 0.7 + timeProximity * 0.3 ≥ threshold)

/-- The inner `for (let j = i + 1; …)` loop of the duplicate grouping:
walk the remaining events, skip the ones whose id is already processed,
and collect each event similar to the anchor while marking its id
processed.  Returns the collected members and the processed set. -/
def collectDups (anchor : DupEvent) (threshold : Rat) :
    List DupEvent → List String → List DupEvent × List String
  | [], processed => ([], processed)
  | e :: rest, processed =>
    if e.id ∈ processed then collectDups anchor threshold rest processed
    else if arePotentialDuplicates anchor e threshold = true then
      let r := collectDups anchor threshold rest (e.id :: processed)
      (e :: r.1, r.2)
    else collectDups anchor threshold rest processed

/-- The outer `for (let i = 0; …)` loop: each unprocessed event anchors
a scan of the later events; a group is emitted only when at least one
member joined the anchor, in which case the anchor's id is also marked
processed (the members were marked during the inner loop). -/
def findDupGroups (threshold : Rat) :
    List DupEvent → List String → List (List DupEvent)
  | [], _ => []
  | e :: rest, processed =>
    if e.id ∈ processed then findDupGroups threshold rest processed
    else
      let r := collectDups e threshold rest processed
      if r.1.isEmpty then findDupGroups threshold rest r.2
      else (e :: r.1) :: findDupGroups threshold rest (e.id :: r.2)

/-- `findDuplicateEvents`' grouping pass over the fetched events (the
groups are later projected to response objects; the grouping structure
is what is modelled). -/
def findDuplicateEvents (events : List DupEvent) (threshold : Rat) :
    List (List DupEvent) :=
  findDupGroups threshold events []

theorem attHit_eq (p : ConflictParams) (e : GEvent) :
    attHit p e = (p.checkAttendees
      && decide (sharedAttendees p.attendees (e.attendees.getD []) ≠ [])
      && isTimeOverlap p.startMs p.endMs e.startMs e.endMs) := by
  rcases e with ⟨id, summary, status, s, en, att⟩
  rcases att with _ | l
  · simp [attHit, sharedAttendees]
  · rcases p with ⟨ps, pe, pid, patt, chk, w⟩
    rcases patt with _ | ⟨a, as⟩
    · simp [attHit, sharedAttendees]
    · simp [attHit]

theorem attHit_imp_timeHit (p : ConflictParams) (e : GEvent)
    (h : attHit p e = true) : timeHit p e = true := by
  rw [attHit_eq] at h
  simp only [Bool.and_eq_true] at h
  exact h.2

/-- Characterization of one scan step in terms of the scanned/hit
predicates. -/
theorem scanStep_char (p : ConflictParams) (acc : ConflictAcc) (e : GEvent) :
    (scanStep p acc e).timeConflicts
        = acc.timeConflicts ++ (if isScanned p e && timeHit p e then [timeEntry e] else [])
      ∧ (scanStep p acc e).attendeeConflicts
        = acc.attendeeConflicts ++ (if isScanned p e && attHit p e then
            [attEntry e (sharedAttendees p.attendees (e.attendees.getD []))] else [])
      ∧ (scanStep p acc e).hasConflicts
        = (acc.hasConflicts || (isScanned p e && timeHit p e)) := by
  unfold scanStep isScanned timeHit attHit
  by_cases h1 : p.eventId = some e.id
  · simp [h1]
  by_cases h2 : e.status = some "cancelled"
  · simp [h1, h2]
  by_cases hov : isTimeOverlap p.startMs p.endMs e.startMs e.endMs = true
  · by_cases hch : p.checkAttendees = true ∧ e.attendees.isSome = true ∧ 0 < p.attendees.length
    · by_cases hsh : sharedAttendees p.attendees (e.attendees.getD []) ≠ []
      · simp [h1, h2, hov, hch, hsh, hch.1, hch.2.1, hch.2.2]
      · simp [h1, h2, hov, hch, hsh]
    · push_neg at hch
      simp only [h1, h2, hov, if_true, if_neg h1, if_neg h2]
      rcases Decidable.em (p.checkAttendees = true) with hc | hc
      · rcases Decidable.em (e.attendees.isSome = true) with ha | ha
        · have hlen : p.attendees.length = 0 := Nat.le_zero.mp (hch hc ha)
          simp [hc, ha, hov, h1, h2, hlen]
        · simp [hc, ha, hov, h1, h2]
      · simp [hc, hov, h1, h2]
  · have hov' : isTimeOverlap p.startMs p.endMs e.startMs e.endMs = false := by
      simpa using hov
    simp [h1, h2, hov']

/-- The scan loop, characterized: the conflict lists grow by exactly the
scanned events whose hit condition holds, in scan order, and the flag is
set iff some scanned event overlaps. -/
theorem scanFoldl_char (p : ConflictParams) (items : List GEvent) :
    ∀ acc : ConflictAcc,
      (items.foldl (scanStep p) acc).timeConflicts
          = acc.timeConflicts ++ (items.filter (fun e => isScanned p e)).filterMap
              (fun e => if timeHit p e then some (timeEntry e) else none)
        ∧ (items.foldl (scanStep p) acc).attendeeConflicts
          = acc.attendeeConflicts ++ (items.filter (fun e => isScanned p e)).filterMap
              (fun e => if attHit p e then
                  some (attEntry e (sharedAttendees p.attendees (e.attendees.getD []))) else none)
        ∧ (items.foldl (scanStep p) acc).hasConflicts
          = (acc.hasConflicts
              || (items.filter (fun e => isScanned p e)).any (fun e => timeHit p e)) := by
  induction items with
  | nil => intro acc; simp
  | cons e items ih =>
    intro acc
    obtain ⟨h1, h2, h3⟩ := scanStep_char p acc e
    obtain ⟨g1, g2, g3⟩ := ih (scanStep p acc e)
    simp only [List.foldl_cons]
    refine ⟨?_, ?_, ?_⟩
    · rw [g1, h1, List.filter_cons]
      cases hs : isScanned p e <;> cases ht : timeHit p e <;>
        simp [hs, ht, List.filterMap_cons]
    · rw [g2, h2, List.filter_cons]
      cases hs : isScanned p e <;> cases ha : attHit p e <;>
        simp [hs, ha, List.filterMap_cons]
    · rw [g3, h3, List.filter_cons]
      cases hs : isScanned p e <;> cases ht : timeHit p e <;>
        simp [hs, ht, Bool.or_assoc]

theorem scanConflicts_time (p : ConflictParams) (items : List GEvent) :
    (scanConflicts p items).timeConflicts
      = (items.filter (fun e => isScanned p e)).filterMap
          (fun e => if timeHit p e then some (timeEntry e) else none) := by
  simpa [scanConflicts] using (scanFoldl_char p items ⟨[], [], false⟩).1

theorem scanConflicts_att (p : ConflictParams) (items : List GEvent) :
    (scanConflicts p items).attendeeConflicts
      = (items.filter (fun e => isScanned p e)).filterMap
          (fun e => if attHit p e then
              some (attEntry e (sharedAttendees p.attendees (e.attendees.getD []))) else none) := by
  simpa [scanConflicts] using (scanFoldl_char p items ⟨[], [], false⟩).2.1

theorem scanConflicts_has (p : ConflictParams) (items : List GEvent) :
    (scanConflicts p items).hasConflicts
      = (items.filter (fun e => isScanned p e)).any (fun e => timeHit p e) := by
  simpa [scanConflicts] using (scanFoldl_char p items ⟨[], [], false⟩).2.2

theorem scanConflicts_has_iff (p : ConflictParams) (items : List GEvent) :
    (scanConflicts p items).hasConflicts = true
      ↔ (scanConflicts p items).timeConflicts ≠ [] := by
  rw [scanConflicts_has, scanConflicts_time]
  simp only [List.any_eq_true, ne_eq, List.filterMap_eq_nil_iff]
  push_neg
  constructor
  · rintro ⟨e, he, ht⟩; exact ⟨e, he, by simp [ht]⟩
  · rintro ⟨e, he, hne⟩
    refine ⟨e, he, ?_⟩
    by_contra hf
    rw [Bool.not_eq_true] at hf
    simp [hf] at hne

/-- C1: the conflict engine's time-overlap predicate is the half-open
test `start1 < end2 AND end1 > start2`; a scan step records a time
conflict for a scanned event exactly when that test holds; and the
boundary spans [10:00,11:00) and [11:00,12:00) (epoch ms of the same
day) do not overlap. -/
theorem isTimeOverlap_halfOpen :
    (∀ start1 end1 start2 end2 : Int,
        isTimeOverlap start1 end1 start2 end2 = true ↔ (start1 < end2 ∧ end1 > start2))
      ∧ (∀ (p : ConflictParams) (acc : ConflictAcc) (e : GEvent),
          (scanStep p acc e).timeConflicts ≠ acc.timeConflicts
            ↔ (isScanned p e = true
                ∧ isTimeOverlap p.startMs p.endMs e.startMs e.endMs = true))
      ∧ isTimeOverlap 36000000 39600000 39600000 43200000 = false := by
  refine ⟨?_, ?_, by decide⟩
  · intro s1 e1 s2 e2; simp [isTimeOverlap]
  · intro p acc e
    rw [(scanStep_char p acc e).1]
    cases hs : isScanned p e <;> cases ht : timeHit p e <;>
      simp_all [timeHit]

/-- C9: when the candidate span's parsed end instant is not strictly
after its start, `detectEventConflicts` fails with the distinguishable
validation error, and the result is the same for every gateway response
(the validation happens before the candidate query is consulted). -/
theorem detectEventConflicts_validates (p : ConflictParams) (h : p.endMs ≤ p.startMs) :
    (∀ items : List GEvent,
        detectEventConflicts p items
          = .error (.validation "End time must be after start time"))
      ∧ ∀ items items' : List GEvent,
          detectEventConflicts p items = detectEventConflicts p items' := by
  refine ⟨fun items => ?_, fun items items' => ?_⟩ <;>
    simp [detectEventConflicts, h]

/-- Witness for C9 at a concrete degenerate span (end = start). -/
theorem detectEventConflicts_validates_witness :
    detectEventConflicts ⟨36000000, 36000000, none, [], true, false⟩ []
      = .error (.validation "End time must be after start time") :=
  (detectEventConflicts_validates ⟨36000000, 36000000, none, [], true, false⟩
    (by decide)).1 []

/-- C2: for a valid candidate span, `detectEventConflicts` returns `null`
exactly when the scan's report would have `hasConflicts = false` (in
particular for an empty candidate list), and any populated report it
returns has `hasConflicts = true`, a non-empty time-conflict list, and
the summary block with the two counts and the `warningOnly` flag. -/
theorem detectEventConflicts_null_iff (p : ConflictParams) (items : List GEvent)
    (h : p.startMs < p.endMs) :
    (detectEventConflicts p items = .ok none
        ↔ (scanConflicts p items).hasConflicts = false)
      ∧ (items = [] → detectEventConflicts p items = .ok none)
      ∧ (∀ r : ConflictReport, detectEventConflicts p items = .ok (some r) →
          r.hasConflicts = true ∧ r.timeConflicts ≠ []
            ∧ r.summary
                = ⟨r.timeConflicts.length, r.attendeeConflicts.length, p.warningOnly⟩) := by
  have hv : ¬ p.endMs ≤ p.startMs := by omega
  refine ⟨?_, ?_, ?_⟩
  · by_cases he : items.isEmpty
    · have hnil : items = [] := by simpa using he
      subst hnil
      simp [detectEventConflicts, hv, scanConflicts]
    · by_cases hc : (scanConflicts p items).hasConflicts = false <;>
        simp [detectEventConflicts, hv, he, hc]
  · intro hnil
    subst hnil
    simp [detectEventConflicts, hv]
  · intro r hr
    by_cases he : items.isEmpty
    · simp [detectEventConflicts, hv, he] at hr
    · by_cases hc : (scanConflicts p items).hasConflicts = false
      · simp [detectEventConflicts, hv, he, hc] at hr
      · have hct : (scanConflicts p items).hasConflicts = true := by
          cases hb : (scanConflicts p items).hasConflicts
          · exact absurd hb hc
          · rfl
        simp [detectEventConflicts, hv, he, hc] at hr
        subst hr
        refine ⟨rfl, ?_, rfl⟩
        simpa using (scanConflicts_has_iff p items).mp hct

/-- Witness for C2 at the end-to-end scenario: candidate 10:00–11:00
against an existing confirmed 10:30–11:30 event sharing an attendee. -/
theorem detectEventConflicts_null_iff_witness :
    detectEventConflicts
        ⟨36000000, 39600000, none, ["user@example.com"], true, false⟩
        [⟨"ev1", some "Existing", some "confirmed", 37800000, 41400000,
          some ["user@example.com"]⟩]
      = .ok none
      ↔ (scanConflicts
          ⟨36000000, 39600000, none, ["user@example.com"], true, false⟩
          [⟨"ev1", some "Existing", some "confirmed", 37800000, 41400000,
            some ["user@example.com"]⟩]).hasConflicts = false :=
  (detectEventConflicts_null_iff
    ⟨36000000, 39600000, none, ["user@example.com"], true, false⟩
    [⟨"ev1", some "Existing", some "confirmed", 37800000, 41400000,
      some ["user@example.com"]⟩] (by decide)).1

theorem attHit_iff (p : ConflictParams) (e : GEvent) :
    attHit p e = true
      ↔ (p.checkAttendees = true
          ∧ sharedAttendees p.attendees (e.attendees.getD []) ≠ []
          ∧ isTimeOverlap p.startMs p.endMs e.startMs e.endMs = true) := by
  rw [attHit_eq]
  simp [and_assoc]

/-- C8: the attendee-conflict list consists of exactly the scanned events
for which `checkAttendees` holds, the (case-insensitively) shared email
list is non-empty, and the spans overlap — each entry carrying exactly
the shared emails; in particular no attendee conflict exists without a
time overlap. -/
theorem attendeeConflicts_char (p : ConflictParams) (items : List GEvent) :
    ((scanConflicts p items).attendeeConflicts
        = (items.filter (fun e => isScanned p e)).filterMap
            (fun e =>
              if p.checkAttendees = true
                  ∧ sharedAttendees p.attendees (e.attendees.getD []) ≠ []
                  ∧ isTimeOverlap p.startMs p.endMs e.startMs e.endMs = true then
                some (attEntry e (sharedAttendees p.attendees (e.attendees.getD [])))
              else none))
      ∧ ∀ c ∈ (scanConflicts p items).attendeeConflicts,
          ∃ e, e ∈ items ∧ isScanned p e = true ∧ p.checkAttendees = true
            ∧ sharedAttendees p.attendees (e.attendees.getD []) ≠ []
            ∧ isTimeOverlap p.startMs p.endMs e.startMs e.endMs = true
            ∧ c = attEntry e (sharedAttendees p.attendees (e.attendees.getD [])) := by
  have hmain : (scanConflicts p items).attendeeConflicts
      = (items.filter (fun e => isScanned p e)).filterMap
          (fun e =>
            if p.checkAttendees = true
                ∧ sharedAttendees p.attendees (e.attendees.getD []) ≠ []
                ∧ isTimeOverlap p.startMs p.endMs e.startMs e.endMs = true then
              some (attEntry e (sharedAttendees p.attendees (e.attendees.getD [])))
            else none) := by
    rw [scanConflicts_att]
    apply List.filterMap_congr
    intro e _
    by_cases ha : attHit p e = true
    · have hc := (attHit_iff p e).mp ha
      simp [ha, hc]
    · have hcond : ¬ (p.checkAttendees = true
          ∧ sharedAttendees p.attendees (e.attendees.getD []) ≠ []
          ∧ isTimeOverlap p.startMs p.endMs e.startMs e.endMs = true) :=
        fun hx => ha ((attHit_iff p e).mpr hx)
      have ha' : attHit p e = false := by
        cases hb : attHit p e
        · rfl
        · exact absurd hb ha
      rw [if_neg hcond]
      simp [ha']
  refine ⟨hmain, ?_⟩
  intro c hc
  rw [hmain] at hc
  obtain ⟨e, he, hfe⟩ := List.mem_filterMap.mp hc
  obtain ⟨hei, hes⟩ := List.mem_filter.mp he
  by_cases hcond : p.checkAttendees = true
      ∧ sharedAttendees p.attendees (e.attendees.getD []) ≠ []
      ∧ isTimeOverlap p.startMs p.endMs e.startMs e.endMs = true
  · rw [if_pos hcond] at hfe
    exact ⟨e, hei, hes, hcond.1, hcond.2.1, hcond.2.2, (Option.some_injective _ hfe).symm⟩
  · rw [if_neg hcond] at hfe
    exact absurd hfe (by simp)

/-- Witness for C8 at the end-to-end attendee scenario. -/
theorem attendeeConflicts_char_witness :
    ∃ e, e ∈ [(⟨"ev1", some "Existing", some "confirmed", 37800000, 41400000,
            some ["user@example.com"]⟩ : GEvent)]
      ∧ isScanned ⟨36000000, 39600000, none, ["user@example.com"], true, false⟩ e = true
      ∧ (⟨36000000, 39600000, none, ["user@example.com"], true, false⟩ :
            ConflictParams).checkAttendees = true
      ∧ sharedAttendees ["user@example.com"] (e.attendees.getD []) ≠ []
      ∧ isTimeOverlap 36000000 39600000 e.startMs e.endMs = true
      ∧ (⟨"ev1", "Existing", 37800000, 41400000, ["user@example.com"],
            "attendee_double_booking"⟩ : AttendeeConflict)
          = attEntry e (sharedAttendees ["user@example.com"] (e.attendees.getD [])) :=
  (attendeeConflicts_char
    ⟨36000000, 39600000, none, ["user@example.com"], true, false⟩
    [⟨"ev1", some "Existing", some "confirmed", 37800000, 41400000,
      some ["user@example.com"]⟩]).2
    ⟨"ev1", "Existing", 37800000, 41400000, ["user@example.com"],
      "attendee_double_booking"⟩ (by decide)
theorem find_first_match {α : Type} (p : α → Bool) (pre : List α) (x : α) (suf : List α)
    (hpre : ∀ y ∈ pre, p y = false) (hx : p x = true) :
    (pre ++ x :: suf).find? p = some x := by
  induction pre with
  | nil => simp [List.find?_cons, hx]
  | cons a pre ih =>
    have ha : p a = false := hpre a (by simp)
    simp only [List.cons_append, List.find?_cons, ha]
    exact ih (fun y hy => hpre y (by simp [hy]))

/-- C6: both operations' instance resolution selects the first instance
in scan order whose normalized original-start date portion equals the
target's (ignoring time-of-day), and fails with the not-found error when
no instance's date matches. -/
theorem instanceResolution_spec (master : MasterEvent) (instances : List RecInstance)
    (target : Int) (hrec : master.recurrence.isSome = true) :
    (∀ (pre : List RecInstance) (inst : RecInstance) (suf : List RecInstance),
        instances = pre ++ inst :: suf →
        (∀ x ∈ pre, instanceDateMatches x target = false) →
        instanceDateMatches inst target = true →
          createEventExceptionResolve master instances target = .ok inst
            ∧ deleteEventInstanceResolve master instances target = .ok inst)
      ∧ ((∀ x ∈ instances, instanceDateMatches x target = false) →
          createEventExceptionResolve master instances target = .error .instanceNotFound
            ∧ deleteEventInstanceResolve master instances target
                = .error .instanceNotFound)
      ∧ (∀ inst t, inst.originalStart = some t →
          (instanceDateMatches inst target = true ↔ isoDate t = isoDate target)) := by
  have hnn : ¬ master.recurrence.isNone := by
    cases h : master.recurrence
    · rw [h] at hrec; simp at hrec
    · simp [h]
  refine ⟨?_, ?_, ?_⟩
  · intro pre inst suf hsplit hpre hinst
    have hfind : findInstance instances target = some inst := by
      rw [hsplit]
      exact find_first_match _ pre inst suf hpre hinst
    constructor
    · simp [createEventExceptionResolve, hnn, hfind]
    · simp [deleteEventInstanceResolve, hfind]
  · intro hnone
    have hfind : findInstance instances target = none := by
      rw [findInstance, List.find?_eq_none]
      intro x hx
      simp [hnone x hx]
    constructor
    · simp [createEventExceptionResolve, hnn, hfind]
    · simp [deleteEventInstanceResolve, hfind]
  · intro inst t ht
    simp [instanceDateMatches, ht]

/-- Witness for C6: instances on UTC days 100 and 107, targeted with an
instant on day 107 at a different time of day, resolve to the second
instance in both operations. -/
theorem instanceResolution_spec_witness :
    createEventExceptionResolve ⟨some ["RRULE:FREQ=WEEKLY;COUNT=10"]⟩
        [⟨"instance1", some 8676000000⟩, ⟨"instance2", some 9280800000⟩]
        9295200000
      = .ok ⟨"instance2", some 9280800000⟩
      ∧ deleteEventInstanceResolve ⟨some ["RRULE:FREQ=WEEKLY;COUNT=10"]⟩
          [⟨"instance1", some 8676000000⟩, ⟨"instance2", some 9280800000⟩]
          9295200000
        = .ok ⟨"instance2", some 9280800000⟩ :=
  (instanceResolution_spec ⟨some ["RRULE:FREQ=WEEKLY;COUNT=10"]⟩
      [⟨"instance1", some 8676000000⟩, ⟨"instance2", some 9280800000⟩]
      9295200000 (by decide)).1
    [⟨"instance1", some 8676000000⟩] ⟨"instance2", some 9280800000⟩ []
    rfl (by decide) (by decide)

/-- Counterexample for C7 as stated: `deleteEventInstance` performs no
recurrence check — against a master whose `recurrence` is null it still
resolves (and would delete) a matching instance instead of failing with
the not-recurring error. -/
theorem deleteEventInstance_no_recurrence_check :
    deleteEventInstanceResolve ⟨none⟩ [⟨"instance1", some 8676000000⟩] 8676000000
        = .ok ⟨"instance1", some 8676000000⟩
      ∧ deleteEventInstanceResolve ⟨none⟩ [⟨"instance1", some 8676000000⟩] 8676000000
          ≠ .error .notRecurring := by
  constructor
  · rfl
  · intro h
    rw [show deleteEventInstanceResolve ⟨none⟩ [⟨"instance1", some 8676000000⟩] 8676000000
        = .ok ⟨"instance1", some 8676000000⟩ from rfl] at h
    exact Except.noConfusion h

/-- C7 (amended): only exception creation guards on the master's
recurrence — it fails with the distinct not-recurring error before any
instance resolution when the master has no recurrence rule — while
instance deletion never consults the master at all (its result is
independent of the master event). -/
theorem recurrenceCheck_spec (master : MasterEvent) (instances : List RecInstance)
    (target : Int) (h : master.recurrence = none) :
    createEventExceptionResolve master instances target = .error .notRecurring
      ∧ ∀ master' : MasterEvent,
          deleteEventInstanceResolve master instances target
            = deleteEventInstanceResolve master' instances target := by
  constructor
  · simp [createEventExceptionResolve, h]
  · intro master'
    simp [deleteEventInstanceResolve]

/-- Witness for C7's amended statement at a concrete non-recurring
master. -/
theorem recurrenceCheck_spec_witness :
    createEventExceptionResolve ⟨none⟩ [⟨"instance1", some 8676000000⟩] 8676000000
      = .error .notRecurring :=
  (recurrenceCheck_spec ⟨none⟩ [⟨"instance1", some 8676000000⟩] 8676000000 rfl).1

/-! ## Correctness of the Levenshtein dynamic program -/

theorem levRec_nil_left (ys : List Char) : levRec [] ys = ys.length := by
  simp [levRec]

theorem levRec_nil_right (xs : List Char) : levRec xs [] = xs.length := by
  cases xs <;> simp [levRec]

theorem levRec_cons_cons (x y : Char) (xs ys : List Char) :
    levRec (x :: xs) (y :: ys)
      = min (levRec xs (y :: ys) + 1)
          (min (levRec (x :: xs) ys + 1) (levRec xs ys + levCost x y)) := by
  simp [levRec]

/-- One row-fill pass computes exactly the specified next row: if the
incoming row holds the distances from `u` (reversed consumed prefix of
`str1`), the produced row holds the distances from `c1 :: u`. -/
theorem levRowAux_spec (c1 : Char) (u : List Char) (cs : List Char) :
    ∀ w : List Char,
      levRowAux c1 cs (levRec u w :: rowSpec u w cs) (levRec (c1 :: u) w)
        = rowSpec (c1 :: u) w cs := by
  induction cs with
  | nil => intro w; simp [levRowAux, rowSpec]
  | cons c2 cs ih =>
    intro w
    have hrow : rowSpec u w (c2 :: cs)
        = levRec u (c2 :: w) :: rowSpec u (c2 :: w) cs := by
      simp [rowSpec]
    rw [hrow]
    have hv : min (levRec u (c2 :: w) + 1)
        (min (levRec (c1 :: u) w + 1) (levRec u w + levCost c1 c2))
        = levRec (c1 :: u) (c2 :: w) := (levRec_cons_cons c1 c2 u w).symm
    simp only [levRowAux]
    rw [hv, ih (c2 :: w)]
    simp [rowSpec]

theorem rowSpec_nil (cs : List Char) :
    ∀ w : List Char,
      rowSpec [] w cs = (List.range cs.length).map (fun k => w.length + 1 + k) := by
  induction cs with
  | nil => intro w; simp [rowSpec]
  | cons c cs ih =>
    intro w
    have h1 : rowSpec [] w (c :: cs) = levRec [] (c :: w) :: rowSpec [] (c :: w) cs := by
      simp [rowSpec]
    rw [h1, ih (c :: w), levRec_nil_left]
    simp only [List.length_cons, List.range_succ_eq_map, List.map_cons, List.map_map]
    refine congrArg₂ List.cons (by simp) ?_
    apply List.map_congr_left
    intro k _
    simp only [Function.comp_apply, List.length_cons]
    omega

/-- Filling all remaining rows from the row for `u` yields the row for
the whole (reversed) first string. -/
theorem levRows_spec (s2 : List Char) :
    ∀ (rest u : List Char),
      levRows s2 rest (levRec u [] :: rowSpec u [] s2) (u.length + 1)
        = levRec (rest.reverse ++ u) [] :: rowSpec (rest.reverse ++ u) [] s2 := by
  intro rest
  induction rest with
  | nil => intro u; simp [levRows]
  | cons c1 cs ih =>
    intro u
    simp only [levRows]
    have hrow : (u.length + 1) :: levRowAux c1 s2 (levRec u [] :: rowSpec u [] s2)
          (u.length + 1)
        = levRec (c1 :: u) [] :: rowSpec (c1 :: u) [] s2 := by
      have h2 : levRec (c1 :: u) [] = u.length + 1 := by
        rw [levRec_nil_right]; rfl
      rw [← h2, levRowAux_spec c1 u s2 []]
    rw [hrow]
    have hidx : u.length + 1 + 1 = (c1 :: u).length + 1 := by simp
    rw [hidx, ih (c1 :: u)]
    simp [List.reverse_cons, List.append_assoc]

theorem rowSpec_getLast (u : List Char) (cs : List Char) :
    ∀ w : List Char,
      (levRec u w :: rowSpec u w cs).getLastD 0 = levRec u (cs.reverse ++ w) := by
  induction cs with
  | nil => intro w; simp [rowSpec]
  | cons c cs ih =>
    intro w
    have h1 : rowSpec u w (c :: cs) = levRec u (c :: w) :: rowSpec u (c :: w) cs := by
      simp [rowSpec]
    rw [h1, List.getLastD_cons, List.getLastD_cons]
    have h2 := ih (c :: w)
    rw [List.getLastD_cons] at h2
    rw [h2]
    simp [List.reverse_cons, List.append_assoc]

/-- The dynamic-programming table of `calculateSimilarity` computes the
unit-cost edit-distance recurrence (read off on the reversed strings,
matching the table's prefix orientation). -/
theorem levenshteinDistance_eq_levRec (s1 s2 : List Char) :
    levenshteinDistance s1 s2 = levRec s1.reverse s2.reverse := by
  unfold levenshteinDistance
  have hinit : List.range (s2.length + 1) = levRec [] [] :: rowSpec [] [] s2 := by
    rw [rowSpec_nil s2 [], levRec_nil_left, List.range_succ_eq_map]
    refine congrArg₂ List.cons (by simp) ?_
    apply List.map_congr_left
    intro k _
    simp only [List.length_nil]
    omega
  rw [hinit]
  have hrows := levRows_spec s2 s1 []
  simp only [List.length_nil, Nat.zero_add, List.append_nil] at hrows
  rw [hrows]
  have hlast := rowSpec_getLast s1.reverse s2 []
  simpa using hlast

theorem levRec_comm_aux :
    ∀ (n : Nat) (a b : List Char), a.length + b.length ≤ n → levRec a b = levRec b a := by
  intro n
  induction n with
  | zero =>
    intro a b h
    match a, b with
    | [], [] => rfl
    | x :: xs, _ => simp at h
    | [], y :: ys => simp at h
  | succ n ih =>
    intro a b h
    match a, b with
    | [], ys => rw [levRec_nil_left, levRec_nil_right]
    | x :: xs, [] => rw [levRec_nil_left, levRec_nil_right]
    | x :: xs, y :: ys =>
      rw [levRec_cons_cons, levRec_cons_cons]
      have h1 : levRec xs (y :: ys) = levRec (y :: ys) xs := by
        apply ih; simp at h ⊢; omega
      have h2 : levRec (x :: xs) ys = levRec ys (x :: xs) := by
        apply ih; simp at h ⊢; omega
      have h3 : levRec xs ys = levRec ys xs := by
        apply ih; simp at h ⊢; omega
      have hc : levCost x y = levCost y x := by
        by_cases hxy : x = y
        · simp [levCost, hxy]
        · have hyx : ¬ y = x := fun hh => hxy hh.symm
          simp [levCost, hxy, hyx]
      rw [h1, h2, h3, hc]
      omega

theorem levRec_comm (a b : List Char) : levRec a b = levRec b a :=
  levRec_comm_aux (a.length + b.length) a b le_rfl

theorem levRec_le_max_aux :
    ∀ (n : Nat) (a b : List Char),
      a.length + b.length ≤ n → levRec a b ≤ max a.length b.length := by
  intro n
  induction n with
  | zero =>
    intro a b h
    match a, b with
    | [], [] => simp [levRec_nil_left]
    | x :: xs, _ => simp at h
    | [], y :: ys => simp at h
  | succ n ih =>
    intro a b h
    match a, b with
    | [], ys => rw [levRec_nil_left]; simp
    | x :: xs, [] => rw [levRec_nil_right]; simp
    | x :: xs, y :: ys =>
      rw [levRec_cons_cons]
      have h3 : levRec xs ys ≤ max xs.length ys.length := by
        apply ih; simp at h ⊢; omega
      have hc : levCost x y ≤ 1 := by
        unfold levCost; split <;> omega
      have hmax : max (x :: xs).length (y :: ys).length = max xs.length ys.length + 1 := by
        simp [Nat.succ_max_succ]
      omega

theorem levRec_le_max (a b : List Char) : levRec a b ≤ max a.length b.length :=
  levRec_le_max_aux (a.length + b.length) a b le_rfl

theorem levenshteinDistance_comm (s1 s2 : List Char) :
    levenshteinDistance s1 s2 = levenshteinDistance s2 s1 := by
  rw [levenshteinDistance_eq_levRec, levenshteinDistance_eq_levRec, levRec_comm]

theorem levenshteinDistance_le_max (s1 s2 : List Char) :
    levenshteinDistance s1 s2 ≤ max s1.length s2.length := by
  rw [levenshteinDistance_eq_levRec]
  simpa using levRec_le_max s1.reverse s2.reverse

/-! ## Properties of the similarity scorer -/

theorem data_ne_nil_of_ne_empty (s : String) (h : s ≠ "") : s.data ≠ [] := by
  intro hd
  apply h
  cases s with
  | mk l =>
    cases hd
    rfl

theorem calculateSimilarity_formula (a b : String) (ha : a ≠ "") (hb : b ≠ "")
    (he : a.data.map Char.toLower ≠ b.data.map Char.toLower) :
    calculateSimilarity a b
      = 1 - ((levenshteinDistance (a.data.map Char.toLower) (b.data.map Char.toLower) : Rat)
          / ((max (a.data.map Char.toLower).length (b.data.map Char.toLower).length : Nat) : Rat)) := by
  simp [calculateSimilarity, ha, hb, he]

theorem maxLen_pos (a b : String) (ha : a ≠ "") :
    0 < max (a.data.map Char.toLower).length (b.data.map Char.toLower).length := by
  have h1 : a.data ≠ [] := data_ne_nil_of_ne_empty a ha
  have h2 : 0 < a.data.length := List.length_pos.mpr h1
  simp only [List.length_map]
  omega

theorem div_maxLen_mem_unit (a b : String) (ha : a ≠ "") :
    0 ≤ ((levenshteinDistance (a.data.map Char.toLower) (b.data.map Char.toLower) : Rat)
        / ((max (a.data.map Char.toLower).length (b.data.map Char.toLower).length : Nat) : Rat))
      ∧ ((levenshteinDistance (a.data.map Char.toLower) (b.data.map Char.toLower) : Rat)
        / ((max (a.data.map Char.toLower).length (b.data.map Char.toLower).length : Nat) : Rat)) ≤ 1 := by
  have hd := levenshteinDistance_le_max (a.data.map Char.toLower) (b.data.map Char.toLower)
  have hm := maxLen_pos a b ha
  constructor
  · apply div_nonneg
    · exact_mod_cast Nat.zero_le _
    · exact_mod_cast Nat.zero_le _
  · rw [div_le_one (by exact_mod_cast hm)]
    exact_mod_cast hd

theorem calculateSimilarity_nonneg (a b : String) : 0 ≤ calculateSimilarity a b := by
  by_cases hg : a = "" ∨ b = ""
  · simp [calculateSimilarity, hg]
  · push_neg at hg
    by_cases he : a.data.map Char.toLower = b.data.map Char.toLower
    · simp [calculateSimilarity, hg.1, hg.2, he]
    · rw [calculateSimilarity_formula a b hg.1 hg.2 he]
      have := (div_maxLen_mem_unit a b hg.1).2
      linarith

theorem calculateSimilarity_le_one (a b : String) : calculateSimilarity a b ≤ 1 := by
  by_cases hg : a = "" ∨ b = ""
  · simp [calculateSimilarity, hg]
  · push_neg at hg
    by_cases he : a.data.map Char.toLower = b.data.map Char.toLower
    · simp [calculateSimilarity, hg.1, hg.2, he]
    · rw [calculateSimilarity_formula a b hg.1 hg.2 he]
      have := (div_maxLen_mem_unit a b hg.1).1
      linarith

theorem calculateSimilarity_empty (a b : String) (h : a = "" ∨ b = "") :
    calculateSimilarity a b = 0 := by
  simp [calculateSimilarity, h]

theorem calculateSimilarity_self (a : String) (h : a ≠ "") :
    calculateSimilarity a a = 1 := by
  unfold calculateSimilarity
  rw [if_neg (by simp [h])]
  simp

theorem calculateSimilarity_lower_eq (a b : String) (ha : a ≠ "") (hb : b ≠ "")
    (he : a.data.map Char.toLower = b.data.map Char.toLower) :
    calculateSimilarity a b = 1 := by
  simp [calculateSimilarity, ha, hb, he]

theorem calculateSimilarity_comm (a b : String) :
    calculateSimilarity a b = calculateSimilarity b a := by
  by_cases hg : a = "" ∨ b = ""
  · have hg' : b = "" ∨ a = "" := hg.symm
    simp [calculateSimilarity, hg, hg']
  · have hg2 : ¬ (b = "" ∨ a = "") := fun h => hg h.symm
    push_neg at hg
    push_neg at hg2
    by_cases he : a.data.map Char.toLower = b.data.map Char.toLower
    · rw [calculateSimilarity_lower_eq a b hg.1 hg.2 he,
        calculateSimilarity_lower_eq b a hg.2 hg.1 he.symm]
    · have he' : b.data.map Char.toLower ≠ a.data.map Char.toLower := fun h => he h.symm
      rw [calculateSimilarity_formula a b hg.1 hg.2 he,
        calculateSimilarity_formula b a hg.2 hg.1 he',
        levenshteinDistance_comm, Nat.max_comm]

/-- C5: the similarity scorer matches its reference definition — empty
guard, case-insensitivity, exact 1 on identical lowered strings, and the
normalized-edit-distance formula with the dynamic program computing the
unit-cost recurrence — and consequently lies in [0,1], is symmetric,
and is 1 on any non-empty string with itself. -/
theorem calculateSimilarity_spec (a b : String) :
    0 ≤ calculateSimilarity a b
      ∧ calculateSimilarity a b ≤ 1
      ∧ calculateSimilarity a b = calculateSimilarity b a
      ∧ (a = "" ∨ b = "" → calculateSimilarity a b = 0)
      ∧ (a ≠ "" → calculateSimilarity a a = 1)
      ∧ (a ≠ "" → b ≠ "" → a.data.map Char.toLower = b.data.map Char.toLower →
          calculateSimilarity a b = 1)
      ∧ (a ≠ "" → b ≠ "" → a.data.map Char.toLower ≠ b.data.map Char.toLower →
          calculateSimilarity a b
            = 1 - ((levenshteinDistance (a.data.map Char.toLower) (b.data.map Char.toLower) : Rat)
                / ((max (a.data.map Char.toLower).length (b.data.map Char.toLower).length : Nat)
                    : Rat)))
      ∧ levenshteinDistance a.data b.data = levRec a.data.reverse b.data.reverse :=
  ⟨calculateSimilarity_nonneg a b, calculateSimilarity_le_one a b,
    calculateSimilarity_comm a b, calculateSimilarity_empty a b,
    calculateSimilarity_self a, calculateSimilarity_lower_eq a b,
    calculateSimilarity_formula a b, levenshteinDistance_eq_levRec a.data b.data⟩

/-- Witness for C5 at concrete strings: a non-empty string scores 1 with
itself (case-insensitively), and an empty first string scores 0. -/
theorem calculateSimilarity_spec_witness :
    calculateSimilarity "Team Meeting" "Team Meeting" = 1
      ∧ calculateSimilarity "" "anything" = 0 :=
  ⟨(calculateSimilarity_spec "Team Meeting" "Team Meeting").2.2.2.2.1 (by decide),
    (calculateSimilarity_spec "" "anything").2.2.2.1 (Or.inl rfl)⟩

/-- Shared characterization of the pairwise duplicate test, with the
48-hour proximity condition expressed on epoch milliseconds
(`|start1 - start2| / 3600000 < 48` iff `|start1 - start2| < 172800000`). -/
theorem areDup_iff (event1 event2 : DupEvent) (threshold : Rat) :
    arePotentialDuplicates event1 event2 threshold = true
      ↔ calculateSimilarity (event1.summary.getD "") (event2.summary.getD "") * 0.7
          + (if (event1.startMs - event2.startMs).natAbs < 172800000 then (1 : Rat) else 0)
              * 0.3
        ≥ threshold := by
  have hprox : (((event1.startMs - event2.startMs).natAbs : Rat) / (1000 * 60 * 60) < 48)
      ↔ ((event1.startMs - event2.startMs).natAbs < 172800000) := by
    rw [div_lt_iff₀ (by norm_num)]
    have h48 : (48 : Rat) * (1000 * 60 * 60) = ((172800000 : Nat) : Rat) := by norm_num
    rw [h48]
    exact Nat.cast_lt
  simp only [arePotentialDuplicates, decide_eq_true_eq]
  by_cases hp : (event1.startMs - event2.startMs).natAbs < 172800000
  · rw [if_pos (hprox.mpr hp), if_pos hp]
  · rw [if_neg (fun hh => hp (hprox.mp hh)), if_neg hp]

/-- C4: the pairwise duplicate test accepts a pair iff 0.7 times the
summary similarity plus 0.3 times the binary 48-hour time proximity is
at least the threshold. -/
theorem arePotentialDuplicates_spec (event1 event2 : DupEvent) (threshold : Rat) :
    arePotentialDuplicates event1 event2 threshold = true
      ↔ calculateSimilarity (event1.summary.getD "") (event2.summary.getD "") * 0.7
          + (if (event1.startMs - event2.startMs).natAbs < 172800000 then (1 : Rat) else 0)
              * 0.3
        ≥ threshold :=
  areDup_iff event1 event2 threshold

/-! ## Properties of the duplicate grouping -/

theorem collectDups_sublist (anchor : DupEvent) (th : Rat) :
    ∀ (l : List DupEvent) (pr : List String),
      (collectDups anchor th l pr).1.Sublist l := by
  intro l
  induction l with
  | nil => intro pr; simp [collectDups]
  | cons e rest ih =>
    intro pr
    by_cases h1 : e.id ∈ pr
    · simp only [collectDups, if_pos h1]
      exact (ih pr).trans (List.sublist_cons_self e rest)
    · by_cases h2 : arePotentialDuplicates anchor e th = true
      · simp only [collectDups, if_neg h1, if_pos h2]
        exact List.Sublist.cons₂ e (ih (e.id :: pr))
      · simp only [collectDups, if_neg h1, if_neg h2]
        exact (ih pr).trans (List.sublist_cons_self e rest)

theorem collectDups_similar (anchor : DupEvent) (th : Rat) :
    ∀ (l : List DupEvent) (pr : List String) (x : DupEvent),
      x ∈ (collectDups anchor th l pr).1 → arePotentialDuplicates anchor x th = true := by
  intro l
  induction l with
  | nil => intro pr x hx; simp [collectDups] at hx
  | cons e rest ih =>
    intro pr x hx
    by_cases h1 : e.id ∈ pr
    · simp only [collectDups, if_pos h1] at hx
      exact ih pr x hx
    · by_cases h2 : arePotentialDuplicates anchor e th = true
      · simp only [collectDups, if_neg h1, if_pos h2] at hx
        rcases List.mem_cons.mp hx with hx | hx
        · exact hx ▸ h2
        · exact ih (e.id :: pr) x hx
      · simp only [collectDups, if_neg h1, if_neg h2] at hx
        exact ih pr x hx

theorem collectDups_not_processed (anchor : DupEvent) (th : Rat) :
    ∀ (l : List DupEvent) (pr : List String) (x : DupEvent),
      x ∈ (collectDups anchor th l pr).1 → x.id ∉ pr := by
  intro l
  induction l with
  | nil => intro pr x hx; simp [collectDups] at hx
  | cons e rest ih =>
    intro pr x hx
    by_cases h1 : e.id ∈ pr
    · simp only [collectDups, if_pos h1] at hx
      exact ih pr x hx
    · by_cases h2 : arePotentialDuplicates anchor e th = true
      · simp only [collectDups, if_neg h1, if_pos h2] at hx
        rcases List.mem_cons.mp hx with hx | hx
        · exact hx ▸ h1
        · intro hmem
          exact ih (e.id :: pr) x hx (List.mem_cons_of_mem _ hmem)
      · simp only [collectDups, if_neg h1, if_neg h2] at hx
        exact ih pr x hx

theorem collectDups_ids_nodup (anchor : DupEvent) (th : Rat) :
    ∀ (l : List DupEvent) (pr : List String),
      ((collectDups anchor th l pr).1.map (fun e => e.id)).Nodup := by
  intro l
  induction l with
  | nil => intro pr; simp [collectDups]
  | cons e rest ih =>
    intro pr
    by_cases h1 : e.id ∈ pr
    · simp only [collectDups, if_pos h1]
      exact ih pr
    · by_cases h2 : arePotentialDuplicates anchor e th = true
      · simp only [collectDups, if_neg h1, if_pos h2, List.map_cons]
        rw [List.nodup_cons]
        refine ⟨?_, ih (e.id :: pr)⟩
        intro hmem
        obtain ⟨x, hx, hxid⟩ := List.mem_map.mp hmem
        have := collectDups_not_processed anchor th rest (e.id :: pr) x hx
        exact this (hxid ▸ List.mem_cons_self _ _)
      · simp only [collectDups, if_neg h1, if_neg h2]
        exact ih pr

theorem collectDups_processed_eq (anchor : DupEvent) (th : Rat) :
    ∀ (l : List DupEvent) (pr : List String),
      (collectDups anchor th l pr).2
        = ((collectDups anchor th l pr).1.map (fun e => e.id)).reverse ++ pr := by
  intro l
  induction l with
  | nil => intro pr; simp [collectDups]
  | cons e rest ih =>
    intro pr
    by_cases h1 : e.id ∈ pr
    · simp only [collectDups, if_pos h1]
      exact ih pr
    · by_cases h2 : arePotentialDuplicates anchor e th = true
      · simp only [collectDups, if_neg h1, if_pos h2, List.map_cons, List.reverse_cons]
        rw [ih (e.id :: pr)]
        simp [List.append_assoc]
      · simp only [collectDups, if_neg h1, if_neg h2]
        exact ih pr

theorem findDupGroups_shape (th : Rat) :
    ∀ (l : List DupEvent) (pr : List String) (g : List DupEvent),
      g ∈ findDupGroups th l pr →
        ∃ a ms, g = a :: ms ∧ ms ≠ []
          ∧ ∀ e ∈ ms, arePotentialDuplicates a e th = true := by
  intro l
  induction l with
  | nil => intro pr g hg; simp [findDupGroups] at hg
  | cons e rest ih =>
    intro pr g hg
    by_cases h1 : e.id ∈ pr
    · simp only [findDupGroups, if_pos h1] at hg
      exact ih pr g hg
    · simp only [findDupGroups, if_neg h1] at hg
      by_cases h2 : (collectDups e th rest pr).1.isEmpty
      · rw [if_pos h2] at hg
        exact ih _ g hg
      · rw [if_neg h2] at hg
        rcases List.mem_cons.mp hg with hg | hg
        · refine ⟨e, (collectDups e th rest pr).1, hg, ?_, ?_⟩
          · intro hnil
            rw [hnil] at h2
            exact h2 rfl
          · intro x hx
            exact collectDups_similar e th rest pr x hx
        · exact ih _ g hg

theorem findDupGroups_mem (th : Rat) :
    ∀ (l : List DupEvent) (pr : List String) (x : DupEvent),
      x ∈ (findDupGroups th l pr).flatten → x ∈ l ∧ x.id ∉ pr := by
  intro l
  induction l with
  | nil => intro pr x hx; simp [findDupGroups] at hx
  | cons e rest ih =>
    intro pr x hx
    by_cases h1 : e.id ∈ pr
    · simp only [findDupGroups, if_pos h1] at hx
      have := ih pr x hx
      exact ⟨List.mem_cons_of_mem _ this.1, this.2⟩
    · simp only [findDupGroups, if_neg h1] at hx
      by_cases h2 : (collectDups e th rest pr).1.isEmpty
      · rw [if_pos h2] at hx
        have hpr2 : (collectDups e th rest pr).2 = pr := by
          rw [collectDups_processed_eq]
          have : (collectDups e th rest pr).1 = [] := by
            cases hc : (collectDups e th rest pr).1
            · rfl
            · rw [hc] at h2; simp at h2
          rw [this]
          simp
        rw [hpr2] at hx
        have := ih pr x hx
        exact ⟨List.mem_cons_of_mem _ this.1, this.2⟩
      · rw [if_neg h2] at hx
        rw [List.flatten_cons, List.mem_append] at hx
        rcases hx with hx | hx
        · rcases List.mem_cons.mp hx with hx | hx
          · subst hx
            exact ⟨List.mem_cons_self _ _, h1⟩
          · refine ⟨List.mem_cons_of_mem _
              ((collectDups_sublist e th rest pr).subset hx), ?_⟩
            exact collectDups_not_processed e th rest pr x hx
        · have := ih _ x hx
          have hnot : x.id ∉ e.id :: (collectDups e th rest pr).2 := this.2
          refine ⟨List.mem_cons_of_mem _ this.1, ?_⟩
          intro hmem
          apply hnot
          rw [collectDups_processed_eq]
          exact List.mem_cons_of_mem _ (List.mem_append_right _ hmem)

theorem findDupGroups_ids_nodup (th : Rat) :
    ∀ (l : List DupEvent) (pr : List String),
      (l.map (fun e => e.id)).Nodup →
      ((findDupGroups th l pr).flatten.map (fun e => e.id)).Nodup := by
  intro l
  induction l with
  | nil => intro pr _; simp [findDupGroups]
  | cons e rest ih =>
    intro pr hnd
    rw [List.map_cons, List.nodup_cons] at hnd
    by_cases h1 : e.id ∈ pr
    · simp only [findDupGroups, if_pos h1]
      exact ih pr hnd.2
    · simp only [findDupGroups, if_neg h1]
      by_cases h2 : (collectDups e th rest pr).1.isEmpty
      · rw [if_pos h2]
        exact ih _ hnd.2
      · rw [if_neg h2]
        rw [List.flatten_cons, List.map_append, List.map_cons, List.cons_append,
          List.nodup_cons, List.nodup_append]
        refine ⟨?_, ?_, ih _ hnd.2, ?_⟩
        · rw [List.mem_append]
          rintro (hmem | hmem)
          · obtain ⟨x, hx, hxid⟩ := List.mem_map.mp hmem
            have hxr : x ∈ rest := (collectDups_sublist e th rest pr).subset hx
            exact hnd.1 (hxid ▸ List.mem_map_of_mem (fun e => e.id) hxr)
          · obtain ⟨x, hx, hxid⟩ := List.mem_map.mp hmem
            have := (findDupGroups_mem th rest _ x hx).2
            exact this (hxid ▸ List.mem_cons_self _ _)
        · exact collectDups_ids_nodup e th rest pr
        · intro s hs hs2
          obtain ⟨x, hx, hxid⟩ := List.mem_map.mp hs
          obtain ⟨y, hy, hyid⟩ := List.mem_map.mp hs2
          have hnoty : y.id ∉ e.id :: (collectDups e th rest pr).2 :=
            (findDupGroups_mem th rest _ y hy).2
          apply hnoty
          rw [collectDups_processed_eq]
          refine List.mem_cons_of_mem _ (List.mem_append_left _ ?_)
          rw [List.mem_reverse]
          rw [hyid, ← hxid]
          exact List.mem_map_of_mem (fun e => e.id) hx

theorem findDupGroups_anchors (th : Rat) :
    ∀ (l : List DupEvent) (pr : List String),
      ((findDupGroups th l pr).filterMap List.head?).Sublist l := by
  intro l
  induction l with
  | nil => intro pr; simp [findDupGroups]
  | cons e rest ih =>
    intro pr
    by_cases h1 : e.id ∈ pr
    · simp only [findDupGroups, if_pos h1]
      exact (ih pr).trans (List.sublist_cons_self e rest)
    · simp only [findDupGroups, if_neg h1]
      by_cases h2 : (collectDups e th rest pr).1.isEmpty
      · rw [if_pos h2]
        exact (ih _).trans (List.sublist_cons_self e rest)
      · rw [if_neg h2]
        rw [List.filterMap_cons]
        simp only [List.head?_cons]
        exact List.Sublist.cons₂ e (ih _)

/-- C3: on events with distinct ids, the emitted groups are pairwise
disjoint (every event is in at most one group), every group has at least
2 events, each group is an anchor followed by members each pairwise
similar to that anchor, and the anchors appear in first-seen input
order. -/
theorem findDuplicateEvents_star (events : List DupEvent) (threshold : Rat)
    (h : (events.map (fun e => e.id)).Nodup) :
    ((findDuplicateEvents events threshold).Pairwise fun g1 g2 => ∀ e ∈ g1, e ∉ g2)
      ∧ (∀ g ∈ findDuplicateEvents events threshold, 2 ≤ g.length)
      ∧ (∀ g ∈ findDuplicateEvents events threshold,
          ∃ a ms, g = a :: ms ∧ ms ≠ []
            ∧ ∀ e ∈ ms, arePotentialDuplicates a e threshold = true)
      ∧ ((findDuplicateEvents events threshold).filterMap List.head?).Sublist events := by
  have hshape := findDupGroups_shape threshold events []
  have hnod := findDupGroups_ids_nodup threshold events [] h
  refine ⟨?_, ?_, hshape, findDupGroups_anchors threshold events []⟩
  · rw [List.map_flatten] at hnod
    have hpw := (List.nodup_flatten.mp hnod).2
    rw [List.pairwise_map] at hpw
    refine hpw.imp ?_
    intro g1 g2 hdis e he1 he2
    exact hdis (List.mem_map_of_mem _ he1) (List.mem_map_of_mem _ he2)
  · intro g hg
    obtain ⟨a, ms, rfl, hne, _⟩ := hshape g hg
    cases ms with
    | nil => exact absurd rfl hne
    | cons m ms => simp only [List.length_cons]; omega

/-- Witness for C3 at two same-summary events with distinct ids. -/
theorem findDuplicateEvents_star_witness :
    ([⟨"a", some "x", (0 : Int)⟩, ⟨"b", some "x", 0⟩].map
        (fun e : DupEvent => e.id)).Nodup
      ∧ ((findDuplicateEvents [⟨"a", some "x", (0 : Int)⟩, ⟨"b", some "x", 0⟩]
            (7/10)).filterMap List.head?).Sublist
          [⟨"a", some "x", (0 : Int)⟩, ⟨"b", some "x", 0⟩] :=
  ⟨by decide, (findDuplicateEvents_star _ _ (by decide)).2.2.2⟩

theorem collectDups_all (anchor : DupEvent) (th : Rat) :
    ∀ (l : List DupEvent) (pr : List String),
      (∀ x ∈ l, arePotentialDuplicates anchor x th = true) →
      (l.map (fun e => e.id)).Nodup →
      (∀ x ∈ l, x.id ∉ pr) →
      collectDups anchor th l pr = (l, (l.map (fun e => e.id)).reverse ++ pr) := by
  intro l
  induction l with
  | nil => intro pr _ _ _; simp [collectDups]
  | cons e rest ih =>
    intro pr hsim hnd hpr
    rw [List.map_cons, List.nodup_cons] at hnd
    have h1 : e.id ∉ pr := hpr e (List.mem_cons_self _ _)
    have h2 : arePotentialDuplicates anchor e th = true := hsim e (List.mem_cons_self _ _)
    simp only [collectDups, if_neg h1, if_pos h2]
    have hfresh : ∀ x ∈ rest, x.id ∉ e.id :: pr := by
      intro x hx
      rw [List.mem_cons]
      rintro (hid | hid)
      · exact hnd.1 (hid ▸ List.mem_map_of_mem (fun e => e.id) hx)
      · exact hpr x (List.mem_cons_of_mem _ hx) hid
    rw [ih (e.id :: pr) (fun x hx => hsim x (List.mem_cons_of_mem _ hx)) hnd.2 hfresh]
    simp [List.reverse_cons, List.append_assoc]

theorem findDupGroups_all_processed (th : Rat) :
    ∀ (l : List DupEvent) (pr : List String),
      (∀ x ∈ l, x.id ∈ pr) → findDupGroups th l pr = [] := by
  intro l
  induction l with
  | nil => intro pr _; simp [findDupGroups]
  | cons e rest ih =>
    intro pr hall
    simp only [findDupGroups, if_pos (hall e (List.mem_cons_self _ _))]
    exact ih pr (fun x hx => hall x (List.mem_cons_of_mem _ hx))

/-- C10 (amended): at any threshold at most 0.3, the pairwise test
accepts every pair of events whose start instants are within 48 hours,
regardless of their summaries, because the time-proximity signal alone
contributes 0.3; consequently, when every later event is within 48 hours
of the first event (ids distinct), `findDuplicateEvents` returns the
single group of all events. -/
theorem timeProximity_dominates (threshold : Rat) (hth : threshold ≤ 3/10) :
    (∀ event1 event2 : DupEvent,
        (event1.startMs - event2.startMs).natAbs < 172800000 →
        arePotentialDuplicates event1 event2 threshold = true)
      ∧ ∀ (a : DupEvent) (rest : List DupEvent),
          rest ≠ [] →
          ((a :: rest).map (fun e => e.id)).Nodup →
          (∀ x ∈ rest, (a.startMs - x.startMs).natAbs < 172800000) →
          findDuplicateEvents (a :: rest) threshold = [a :: rest] := by
  have hpair : ∀ event1 event2 : DupEvent,
      (event1.startMs - event2.startMs).natAbs < 172800000 →
      arePotentialDuplicates event1 event2 threshold = true := by
    intro e1 e2 hcl
    rw [areDup_iff, if_pos hcl]
    have hs := calculateSimilarity_nonneg (e1.summary.getD "") (e2.summary.getD "")
    have hmul : 0 ≤ calculateSimilarity (e1.summary.getD "") (e2.summary.getD "") * 0.7 :=
      mul_nonneg hs (by norm_num)
    have h03 : (1 : Rat) * 0.3 = 3/10 := by norm_num
    linarith
  refine ⟨hpair, ?_⟩
  intro a rest hne hnd hclose
  rw [List.map_cons, List.nodup_cons] at hnd
  have hcol : collectDups a threshold rest []
      = (rest, (rest.map (fun e => e.id)).reverse ++ []) :=
    collectDups_all a threshold rest []
      (fun x hx => hpair a x (hclose x hx)) hnd.2 (fun x _ => List.not_mem_nil _)
  have hidmem : a.id ∉ ([] : List String) := List.not_mem_nil _
  unfold findDuplicateEvents
  simp only [findDupGroups]
  rw [if_neg hidmem]
  simp only [hcol]
  have hempty : ¬ (rest.isEmpty = true) := by
    cases rest
    · exact absurd rfl hne
    · simp
  rw [if_neg hempty]
  have hproc : ∀ x ∈ rest, x.id ∈ a.id :: ((rest.map (fun e => e.id)).reverse ++ []) := by
    intro x hx
    rw [List.mem_cons]
    right
    rw [List.append_nil, List.mem_reverse]
    exact List.mem_map_of_mem _ hx
  rw [findDupGroups_all_processed threshold rest _ hproc]

/-- Witness for C10's amended statement: two events one hour apart at
threshold 0.3 form one group of both events. -/
theorem timeProximity_dominates_witness :
    ((3/10 : Rat) ≤ 3/10)
      ∧ findDuplicateEvents [⟨"a", none, (0 : Int)⟩, ⟨"b", none, 3600000⟩] (3/10)
          = [[⟨"a", none, (0 : Int)⟩, ⟨"b", none, 3600000⟩]] :=
  ⟨le_refl _,
    (timeProximity_dominates (3/10) (le_refl _)).2 ⟨"a", none, 0⟩ [⟨"b", none, 3600000⟩]
      (by decide) (by decide) (by decide)⟩

/-- Counterexample for C10 as stated: with empty summaries and threshold
0.3, events b (at 47h) and c (at 94h) are within 48 hours of each other
and pairwise-accepted, yet the scan groups only [a, b] (b joins a's
group and is marked processed; c anchors a singleton that is dropped),
so the time-adjacent pair (b, c) is not grouped — c is in no group at
all. -/
theorem findDuplicateEvents_timeAdjacent_counterexample :
    arePotentialDuplicates ⟨"b", none, (169200000 : Int)⟩ ⟨"c", none, 338400000⟩ (3/10)
        = true
      ∧ findDuplicateEvents
          [⟨"a", none, (0 : Int)⟩, ⟨"b", none, 169200000⟩, ⟨"c", none, 338400000⟩]
          (3/10)
        = [[⟨"a", none, 0⟩, ⟨"b", none, 169200000⟩]]
      ∧ (⟨"c", none, (338400000 : Int)⟩ : DupEvent)
          ∉ (findDuplicateEvents
              [⟨"a", none, (0 : Int)⟩, ⟨"b", none, 169200000⟩, ⟨"c", none, 338400000⟩]
              (3/10)).flatten := by
  have h0 : calculateSimilarity "" "" = 0 := calculateSimilarity_empty "" "" (Or.inl rfl)
  have hbc : arePotentialDuplicates ⟨"b", none, (169200000 : Int)⟩
      ⟨"c", none, 338400000⟩ (3/10) = true := by
    rw [areDup_iff, if_pos (by decide)]
    simp only [Option.getD_none, h0]
    norm_num
  have hab : arePotentialDuplicates ⟨"a", none, (0 : Int)⟩
      ⟨"b", none, 169200000⟩ (3/10) = true := by
    rw [areDup_iff, if_pos (by decide)]
    simp only [Option.getD_none, h0]
    norm_num
  have hac : arePotentialDuplicates ⟨"a", none, (0 : Int)⟩
      ⟨"c", none, 338400000⟩ (3/10) = false := by
    have h' : ¬ (arePotentialDuplicates ⟨"a", none, (0 : Int)⟩
        ⟨"c", none, 338400000⟩ (3/10) = true) := by
      rw [areDup_iff, if_neg (by decide)]
      simp only [Option.getD_none, h0]
      norm_num
    cases hb : arePotentialDuplicates ⟨"a", none, (0 : Int)⟩
        ⟨"c", none, 338400000⟩ (3/10)
    · rfl
    · exact absurd hb h'
  have hrun : findDuplicateEvents
      [⟨"a", none, (0 : Int)⟩, ⟨"b", none, 169200000⟩, ⟨"c", none, 338400000⟩] (3/10)
      = [[⟨"a", none, 0⟩, ⟨"b", none, 169200000⟩]] := by
    unfold findDuplicateEvents
    simp [findDupGroups, collectDups, hab, hac, hbc]
  refine ⟨hbc, hrun, ?_⟩
  rw [hrun]
  decide

end CalendarCore
